/-
Verification of the element-normalization pipeline and the coordinate/unit
mapping layer of the x-banana-slides backend.

The definitions below are shallow embeddings of the Python sources:
  * `ResultProcessor` embeds backend/services/segmentation/result_processor.py
    (bbox validation, clamping, minimum-area filtering, overlap deduplication).
  * `ExportService` embeds the coordinate and font-size mapping of
    backend/services/export_service.py (_add_slide_with_elements).
  * `ParseModel` embeds _parse_json_response of
    backend/services/element_segmentation_service.py, together with a model
    of the Python stdlib JSON parser and of the two regular-expression
    substitutions the method performs.

Python numbers are modelled as rationals (ℚ); Python lists as Lean lists.
An element dictionary is modelled as its bbox plus an opaque payload that
stands for the remaining keys (the pipeline never inspects them).
-/
import Mathlib

namespace ResultProcessor

/-- An element record: the bbox list that the pipeline inspects plus an
opaque payload standing for all other dictionary keys (text, description,
font data, ...), which the normalizer carries through untouched. -/
structure SegElem where
  bbox : List ℚ
  payload : ℕ
  deriving DecidableEq, Repr

/-- Background info record (`background_info` dictionary). Fields are
optional because the upstream JSON may omit any of them; the all-`none`
value plays the role of the empty dictionary `{}`. -/
structure BackgroundInfo where
  has_gradient : Option Bool
  main_color : Option String
  has_texture : Option Bool
  deriving DecidableEq, Repr

/-- The empty background dictionary (Python literal used as a default). -/
def emptyBg : BackgroundInfo := ⟨none, none, none⟩

/-- Raw parsed object from the vision API: every key is optional
(Python reads them with `.get(key, default)`). -/
structure RawInfo where
  text_elements : Option (List SegElem)
  icons : Option (List SegElem)
  charts : Option (List SegElem)
  background_info : Option BackgroundInfo
  deriving DecidableEq, Repr

/-- Cleaned object returned by `validate_and_clean_elements`: all keys
present. -/
structure CleanInfo where
  text_elements : List SegElem
  icons : List SegElem
  charts : List SegElem
  background_info : BackgroundInfo
  deriving DecidableEq, Repr

/-- `ResultProcessor._is_valid_bbox`: requires a 4-value bbox, positive
width and height, and the in-bounds check with a 10-pixel tolerance. -/
def is_valid_bbox (bbox : List ℚ) (image_width image_height : ℚ) : Bool :=
  match bbox with
  | [x, y, width, height] =>
    if width ≤ 0 ∨ height ≤ 0 then false
    else if x < -10 ∨ y < -10 then false
    else if x + width > image_width + 10 ∨ y + height > image_height + 10 then false
    else true
  | _ => false

/-- `ResultProcessor._clamp_bbox` on the four unpacked values (the Python
function unpacks `bbox` into `x, y, width, height`; callers only pass
4-value bboxes that passed validation). -/
def clamp_bbox (x y width height image_width image_height : ℚ) : List ℚ :=
  let x' := max 0 (min x (image_width - 1))
  let y' := max 0 (min y (image_height - 1))
  let width' := max 1 (min width (image_width - x'))
  let height' := max 1 (min height (image_height - y'))
  [x', y', width', height']

/-- List-level wrapper for `_clamp_bbox`; in the source the argument is the
bbox list, always of length 4 at the call sites (otherwise Python's
unpacking would raise, so the catch-all branch is never reached). -/
def clamp_bbox_list (bbox : List ℚ) (image_width image_height : ℚ) : List ℚ :=
  match bbox with
  | [x, y, width, height] => clamp_bbox x y width height image_width image_height
  | other => other

/-- `ResultProcessor._validate_elements`: keep each element whose bbox is
valid, replacing its bbox by the clamped bbox; drop (log-only) otherwise. -/
def validate_elements (elements : List SegElem) (image_width image_height : ℚ) :
    List SegElem :=
  match elements with
  | [] => []
  | e :: rest =>
    if is_valid_bbox e.bbox image_width image_height then
      { e with bbox := clamp_bbox_list e.bbox image_width image_height } ::
        validate_elements rest image_width image_height
    else
      validate_elements rest image_width image_height

/-- `ResultProcessor._filter_small_elements`: keep an element iff its bbox
has 4 values and `width * height ≥ min_area`. -/
def filter_small_elements (elements : List SegElem) (min_area : ℚ) : List SegElem :=
  elements.filter fun e =>
    match e.bbox with
    | [_, _, width, height] => decide (width * height ≥ min_area)
    | _ => false

/-- `ResultProcessor._bbox_area`: `width * height`, or 0 for a malformed
bbox. -/
def bbox_area (bbox : List ℚ) : ℚ :=
  match bbox with
  | [_, _, width, height] => width * height
  | _ => 0

/-- `ResultProcessor._calculate_overlap`: intersection-over-union of two
axis-aligned boxes, 0 for malformed bboxes or zero union. -/
def calculate_overlap (bbox1 bbox2 : List ℚ) : ℚ :=
  match bbox1, bbox2 with
  | [x1, y1, w1, h1], [x2, y2, w2, h2] =>
    let x_overlap := max 0 (min (x1 + w1) (x2 + w2) - max x1 x2)
    let y_overlap := max 0 (min (y1 + h1) (y2 + h2) - max y1 y2)
    let intersection := x_overlap * y_overlap
    let union := w1 * h1 + w2 * h2 - intersection
    if union = 0 then 0 else intersection / union
  | _, _ => 0

/-- One step of a stable insertion sort by descending bbox area: the new
element goes after every already-placed element whose area is at least as
large (so equal-area elements keep their relative order, exactly like
Python's stable `sorted(..., key=area, reverse=True)`). -/
def insertByAreaDesc (e : SegElem) : List SegElem → List SegElem
  | [] => [e]
  | f :: rest =>
    if bbox_area f.bbox < bbox_area e.bbox then e :: f :: rest
    else f :: insertByAreaDesc e rest

/-- Model of `sorted(elements, key=bbox_area, reverse=True)`: the stable
sort by descending area, realized as a left fold of stable insertions. -/
def sortByAreaDesc (elements : List SegElem) : List SegElem :=
  elements.foldl (fun acc e => insertByAreaDesc e acc) []

/-- The greedy loop of `_deduplicate_elements`: accept each element of the
(sorted) list unless it overlaps more than 0.7 with an already-accepted
element. -/
def dedup_go (result : List SegElem) : List SegElem → List SegElem
  | [] => result
  | e :: rest =>
    if result.any fun existing =>
        decide (calculate_overlap e.bbox existing.bbox > 7/10) then
      dedup_go result rest
    else
      dedup_go (result ++ [e]) rest

/-- `ResultProcessor._deduplicate_elements`: short-circuit for lists of at
most one element, otherwise sort by area descending and run the greedy
overlap filter. -/
def deduplicate_elements (elements : List SegElem) : List SegElem :=
  if elements.length ≤ 1 then elements
  else dedup_go [] (sortByAreaDesc elements)

/-- `ResultProcessor.validate_and_clean_elements`: per category, validate
and clamp, filter by the category minimum area (text 100, icon 200,
chart 500), deduplicate; pass `background_info` through (defaulting to the
empty dictionary when absent). -/
def validate_and_clean_elements (elements_info : RawInfo)
    (image_width image_height : ℚ) : CleanInfo :=
  let text1 := validate_elements (elements_info.text_elements.getD [])
    image_width image_height
  let icons1 := validate_elements (elements_info.icons.getD [])
    image_width image_height
  let charts1 := validate_elements (elements_info.charts.getD [])
    image_width image_height
  let min_text_area : ℚ := 100
  let min_icon_area : ℚ := 200
  let min_chart_area : ℚ := 500
  let text2 := filter_small_elements text1 min_text_area
  let icons2 := filter_small_elements icons1 min_icon_area
  let charts2 := filter_small_elements charts1 min_chart_area
  { text_elements := deduplicate_elements text2
    icons := deduplicate_elements icons2
    charts := deduplicate_elements charts2
    background_info := elements_info.background_info.getD emptyBg }

end ResultProcessor

namespace ExportService

/-- 1 inch = 914400 EMU (python-pptx internal unit). -/
def emu_per_inch : ℚ := 914400

/-- `prs.slide_width = Inches(10)` in EMU. -/
def slide_width_emu : ℚ := 9144000

/-- `prs.slide_height = Inches(5.625)` in EMU. -/
def slide_height_emu : ℚ := 5143500

/-- `scale_x = prs.slide_width / image_width` (EMU per pixel). -/
def scale_x (slide_width image_width : ℚ) : ℚ := slide_width / image_width

/-- `scale_y = prs.slide_height / image_height` (EMU per pixel). -/
def scale_y (slide_height image_height : ℚ) : ℚ := slide_height / image_height

/-- The four `Inches(...)` arguments (left, top, width, height) computed by
`_add_slide_with_elements` for a 4-value bbox `[x, y, w, h]`: pixel values
are scaled to EMU by `scale_x`/`scale_y` and divided by 914400 back to
inches. The textbox path and the icon/chart picture path compute exactly
these four values; no further adjustment is applied to them. -/
def map_bbox (slide_width slide_height x y w h image_width image_height : ℚ) :
    ℚ × ℚ × ℚ × ℚ :=
  let sx := scale_x slide_width image_width
  let sy := scale_y slide_height image_height
  let left_emu := x * sx
  let top_emu := y * sy
  let width_emu := w * sx
  let height_emu := h * sy
  (left_emu / emu_per_inch, top_emu / emu_per_inch,
   width_emu / emu_per_inch, height_emu / emu_per_inch)

/-- Python `int(...)`: truncation toward zero. -/
def pyInt (q : ℚ) : ℤ := if q < 0 then -⌊-q⌋ else ⌊q⌋

/-- `font_size_pt = font_size_px * (ppt_height_inches / image_height) * 72`
with `ppt_height_inches = prs.slide_height / 914400`, before integer
conversion. -/
def font_size_pt_raw (font_size_px image_height slide_height : ℚ) : ℚ :=
  let ppt_height_inches := slide_height / emu_per_inch
  font_size_px * (ppt_height_inches / image_height) * 72

/-- The integer point size passed to `Pt(int(font_size_pt))`. -/
def font_size_pt (font_size_px image_height slide_height : ℚ) : ℤ :=
  pyInt (font_size_pt_raw font_size_px image_height slide_height)

end ExportService

namespace ParseModel

/-- ASCII whitespace as matched by Python's `str.strip` and by the regex
class `\s` (restricted to ASCII: space, tab, newline, carriage return,
vertical tab, form feed). -/
def isSpaceAscii (c : Char) : Bool :=
  c = ' ' ∨ c = '\t' ∨ c = '\n' ∨ c = '\r' ∨ c = '\x0b' ∨ c = '\x0c'

/-- JSON whitespace (the only characters `json.loads` skips around
tokens): space, tab, newline, carriage return. -/
def isJsonWs (c : Char) : Bool :=
  c = ' ' ∨ c = '\t' ∨ c = '\n' ∨ c = '\r'

/-- Python `str.strip()` on a character list. -/
def pyStrip (l : List Char) : List Char :=
  ((l.dropWhile isSpaceAscii).reverse.dropWhile isSpaceAscii).reverse

/-- Whitespace stripping at both ends with the JSON whitespace class
(used to model how `json.loads` ignores surrounding whitespace). -/
def jsonStrip (l : List Char) : List Char :=
  ((l.dropWhile isJsonWs).reverse.dropWhile isJsonWs).reverse

/-- `cleaned.startswith('` ` ` `')`. -/
def startsWithFence (l : List Char) : Bool :=
  l.take 3 = ['\x60', '\x60', '\x60']

/-- `cleaned.endswith('` ` ` `')`. -/
def endsWithFence (l : List Char) : Bool :=
  l.reverse.take 3 = ['\x60', '\x60', '\x60']

/-- The optional literal `json` right after an opening fence
(the `(?:json)?` group of the first substitution pattern). -/
def stripJsonTag : List Char → List Char
  | 'j' :: 's' :: 'o' :: 'n' :: rest => rest
  | l => l

/-- One left-to-right scan of
`re.sub(r'^` ` ` `(?:json)?\s*', '', cleaned, flags=re.MULTILINE)`.
`lineStart` records whether the current position follows a newline (or is
position 0) in the original string, which is where the MULTILINE `^`
matches; after a removed match the scan resumes at the match end, which is
a line start exactly when the last consumed character was a newline.
`fuel` only serves structural recursion; every step consumes at least one
character, so `fuel = l.length` is always sufficient. -/
def sub1Go : ℕ → Bool → List Char → List Char
  | 0, _, l => l
  | _ + 1, _, [] => []
  | fuel + 1, lineStart, c :: rest =>
    if lineStart ∧ c = '\x60' ∧ rest.take 2 = ['\x60', '\x60'] then
      let rest2 := stripJsonTag (rest.drop 2)
      let ws := rest2.takeWhile isSpaceAscii
      let rest3 := rest2.dropWhile isSpaceAscii
      sub1Go fuel (decide (ws.getLast? = some '\n')) rest3
    else
      c :: sub1Go fuel (decide (c = '\n')) rest

/-- One left-to-right scan of
`re.sub(r'\s*` ` ` `$', '', cleaned, flags=re.MULTILINE)`. At each
position the greedy `\s*` can only succeed by consuming the maximal
whitespace run (a shorter run would leave a whitespace character where a
backtick is required), after which three backticks followed by a line end
(end of string, or a newline, where the MULTILINE `$` matches) complete
the match. -/
def sub2Go : ℕ → List Char → List Char
  | 0, l => l
  | _ + 1, [] => []
  | fuel + 1, c :: rest =>
    let r := (c :: rest).dropWhile isSpaceAscii
    if r.take 3 = ['\x60', '\x60', '\x60'] ∧
        (r.drop 3 = [] ∨ (r.drop 3).head? = some '\n') then
      sub2Go fuel (r.drop 3)
    else
      c :: sub2Go fuel rest

/-- The fence-stripping block of `_parse_json_response`: the first
substitution runs only when the stripped text starts with a fence, the
second only when the result of the first still ends with one. -/
def stripMarkdown (l : List Char) : List Char :=
  let c1 := if startsWithFence l then sub1Go l.length true l else l
  if endsWithFence c1 then sub2Go c1.length c1 else c1

/-- `cleaned`: the input after `str.strip()` and fence removal. -/
def cleanText (l : List Char) : List Char :=
  stripMarkdown (pyStrip l)

/-- The candidate greedy match of `\{.*\}` (DOTALL): drop everything
before the first opening brace, then everything after the last closing
brace; empty when the pattern has no match. -/
def braceSpanAux (l : List Char) : List Char :=
  ((l.dropWhile fun c => !(c = '\x7b')).reverse.dropWhile fun c => !(c = '\x7d')).reverse

/-- `re.search(r'\{.*\}', cleaned, re.DOTALL)`: with a greedy `.*` that
also matches newlines, the match (if any) runs from the first opening
brace to the last closing brace after it. -/
def braceSpan (l : List Char) : Option (List Char) :=
  if braceSpanAux l = [] then none else some (braceSpanAux l)

/-- Parsed JSON values (the results `json.loads` can return). -/
inductive Json where
  | null
  | bool (b : Bool)
  | num (q : ℚ)
  | str (s : List Char)
  | arr (elems : List Json)
  | obj (members : List (List Char × Json))

/-- Value of one hexadecimal digit. -/
def hexVal (c : Char) : Option ℕ :=
  if c.isDigit then some (c.toNat - 48)
  else if 'a' ≤ c ∧ c ≤ 'f' then some (c.toNat - 87)
  else if 'A' ≤ c ∧ c ≤ 'F' then some (c.toNat - 55)
  else some (c.toNat - 55) |>.filter fun _ => False

/-- Body of a JSON string after the opening quote: literal characters
(no unescaped control characters) and the standard escapes, up to the
closing quote. Returns the decoded characters and the remaining input. -/
def parseStringBody : List Char → Option (List Char × List Char)
  | [] => none
  | '"' :: rest => some ([], rest)
  | '\\' :: '"' :: rest => (parseStringBody rest).map fun p => ('"' :: p.1, p.2)
  | '\\' :: '\\' :: rest => (parseStringBody rest).map fun p => ('\\' :: p.1, p.2)
  | '\\' :: '/' :: rest => (parseStringBody rest).map fun p => ('/' :: p.1, p.2)
  | '\\' :: 'b' :: rest => (parseStringBody rest).map fun p => ('\x08' :: p.1, p.2)
  | '\\' :: 'f' :: rest => (parseStringBody rest).map fun p => ('\x0c' :: p.1, p.2)
  | '\\' :: 'n' :: rest => (parseStringBody rest).map fun p => ('\n' :: p.1, p.2)
  | '\\' :: 'r' :: rest => (parseStringBody rest).map fun p => ('\r' :: p.1, p.2)
  | '\\' :: 't' :: rest => (parseStringBody rest).map fun p => ('\t' :: p.1, p.2)
  | '\\' :: 'u' :: h1 :: h2 :: h3 :: h4 :: rest =>
    match hexVal h1, hexVal h2, hexVal h3, hexVal h4 with
    | some a, some b, some c, some d =>
      (parseStringBody rest).map fun p =>
        (Char.ofNat (((a * 16 + b) * 16 + c) * 16 + d) :: p.1, p.2)
    | _, _, _, _ => none
  | '\\' :: _ => none
  | c :: rest =>
    if c.toNat < 32 then none
    else (parseStringBody rest).map fun p => (c :: p.1, p.2)

/-- Digits to a natural number (most significant first). -/
def digitsToNat (ds : List Char) : ℕ :=
  ds.foldl (fun acc c => 10 * acc + (c.toNat - 48)) 0

/-- A JSON number: optional minus, an integer part (`0`, or a nonzero
digit followed by digits), optional fraction, optional exponent; the value
is mantissa times the appropriate power of ten. -/
def parseNumber (l : List Char) : Option (ℚ × List Char) :=
  let (neg, l1) := match l with
    | '-' :: r => (true, r)
    | _ => (false, l)
  let ipFail : Option (List Char × List Char) := none
  let ip? : Option (List Char × List Char) := match l1 with
    | '0' :: r => some (['0'], r)
    | c :: r =>
      if c.isDigit then some (c :: r.takeWhile Char.isDigit, r.dropWhile Char.isDigit)
      else ipFail
    | [] => ipFail
  match ip? with
  | none => none
  | some (ip, r2) =>
    let (fd, r3) : List Char × List Char := match r2 with
      | '.' :: r => (r.takeWhile Char.isDigit, r.dropWhile Char.isDigit)
      | _ => ([], r2)
    let hadDot : Bool := match r2 with
      | '.' :: _ => true
      | _ => false
    if hadDot ∧ fd = [] then none
    else
      let expPart : Option (ℤ × List Char) := match r3 with
        | 'e' :: '+' :: r => if (r.takeWhile Char.isDigit) = [] then none else
            some ((digitsToNat (r.takeWhile Char.isDigit) : ℤ), r.dropWhile Char.isDigit)
        | 'E' :: '+' :: r => if (r.takeWhile Char.isDigit) = [] then none else
            some ((digitsToNat (r.takeWhile Char.isDigit) : ℤ), r.dropWhile Char.isDigit)
        | 'e' :: '-' :: r => if (r.takeWhile Char.isDigit) = [] then none else
            some (-(digitsToNat (r.takeWhile Char.isDigit) : ℤ), r.dropWhile Char.isDigit)
        | 'E' :: '-' :: r => if (r.takeWhile Char.isDigit) = [] then none else
            some (-(digitsToNat (r.takeWhile Char.isDigit) : ℤ), r.dropWhile Char.isDigit)
        | 'e' :: r => if (r.takeWhile Char.isDigit) = [] then none else
            some ((digitsToNat (r.takeWhile Char.isDigit) : ℤ), r.dropWhile Char.isDigit)
        | 'E' :: r => if (r.takeWhile Char.isDigit) = [] then none else
            some ((digitsToNat (r.takeWhile Char.isDigit) : ℤ), r.dropWhile Char.isDigit)
        | _ => some (0, r3)
      match expPart with
      | none => none
      | some (e, r4) =>
        let m : ℚ := (digitsToNat (ip ++ fd) : ℚ)
        let etot : ℤ := e - fd.length
        let mag : ℚ := if 0 ≤ etot then m * (10 : ℚ) ^ etot.toNat
          else m / (10 : ℚ) ^ (-etot).toNat
        some (if neg then -mag else mag, r4)

mutual

/-- A JSON value: whitespace, then one of the literals, a string, an
object, an array, or a number. `fuel` bounds the recursion depth and is
chosen large enough in `json_loads` that it never runs out. -/
def parseValue (fuel : ℕ) (l : List Char) : Option (Json × List Char) :=
  match fuel with
  | 0 => none
  | fuel + 1 =>
    match l.dropWhile isJsonWs with
    | 'n' :: 'u' :: 'l' :: 'l' :: r => some (.null, r)
    | 't' :: 'r' :: 'u' :: 'e' :: r => some (.bool true, r)
    | 'f' :: 'a' :: 'l' :: 's' :: 'e' :: r => some (.bool false, r)
    | '"' :: r => (parseStringBody r).map fun p => (.str p.1, p.2)
    | '\x7b' :: r => parseObject fuel (r.dropWhile isJsonWs)
    | '[' :: r => parseArray fuel (r.dropWhile isJsonWs)
    | other => (parseNumber other).map fun p => (.num p.1, p.2)

/-- Array contents after the opening bracket (whitespace skipped). -/
def parseArray (fuel : ℕ) (l : List Char) : Option (Json × List Char) :=
  match fuel with
  | 0 => none
  | fuel + 1 =>
    match l with
    | ']' :: r => some (.arr [], r)
    | _ =>
      match parseValue fuel l with
      | some (v, r) => parseArrayRest fuel [v] (r.dropWhile isJsonWs)
      | none => none

/-- Remaining array items; `acc` holds the parsed items in reverse. -/
def parseArrayRest (fuel : ℕ) (acc : List Json) (l : List Char) :
    Option (Json × List Char) :=
  match fuel with
  | 0 => none
  | fuel + 1 =>
    match l with
    | ']' :: r => some (.arr acc.reverse, r)
    | ',' :: r =>
      match parseValue fuel r with
      | some (v, r2) => parseArrayRest fuel (v :: acc) (r2.dropWhile isJsonWs)
      | none => none
    | _ => none

/-- One `"key": value` member. -/
def parseMember (fuel : ℕ) (l : List Char) :
    Option ((List Char × Json) × List Char) :=
  match fuel with
  | 0 => none
  | fuel + 1 =>
    match l.dropWhile isJsonWs with
    | '"' :: r =>
      match parseStringBody r with
      | some (k, r2) =>
        match r2.dropWhile isJsonWs with
        | ':' :: r3 =>
          match parseValue fuel r3 with
          | some (v, r4) => some ((k, v), r4)
          | none => none
        | _ => none
      | none => none
    | _ => none

/-- Object contents after the opening brace (whitespace skipped). -/
def parseObject (fuel : ℕ) (l : List Char) : Option (Json × List Char) :=
  match fuel with
  | 0 => none
  | fuel + 1 =>
    match l with
    | '\x7d' :: r => some (.obj [], r)
    | _ =>
      match parseMember fuel l with
      | some (kv, r) => parseObjectRest fuel [kv] (r.dropWhile isJsonWs)
      | none => none

/-- Remaining object members; `acc` holds the parsed members in reverse. -/
def parseObjectRest (fuel : ℕ) (acc : List (List Char × Json)) (l : List Char) :
    Option (Json × List Char) :=
  match fuel with
  | 0 => none
  | fuel + 1 =>
    match l with
    | '\x7d' :: r => some (.obj acc.reverse, r)
    | ',' :: r =>
      match parseMember fuel r with
      | some (kv, r2) => parseObjectRest fuel (kv :: acc) (r2.dropWhile isJsonWs)
      | none => none
    | _ => none

end

/-- Model of `json.loads`: strip surrounding JSON whitespace, parse one
value, and require that nothing but whitespace remains. The fuel
`3 * length + 8` exceeds the number of parser calls any input of that
length can cause (each call past the first consumes input). -/
def json_loads (l : List Char) : Option Json :=
  let t := jsonStrip l
  match parseValue (3 * t.length + 8) t with
  | some (v, r) => if r.dropWhile isJsonWs = [] then some v else none
  | none => none

/-- The ValueError message: a fixed prelude followed by `cleaned[:200]`. -/
def errMsg (cleaned : List Char) : List Char :=
  "Failed to parse JSON from response: ".toList ++ cleaned.take 200

/-- The fallback parse of the greedy brace span. -/
def spanParse (cleaned : List Char) : Option Json :=
  (braceSpan cleaned).bind json_loads

/-- `ElementSegmentationService._parse_json_response`: strip, remove
fences, try a direct parse, then the first greedy brace span, and
otherwise fail with the truncated preview. -/
def parse_json_response (s : List Char) : Except (List Char) Json :=
  let cleaned := cleanText s
  match json_loads cleaned with
  | some v => Except.ok v
  | none =>
    match braceSpan cleaned with
    | some sp =>
      match json_loads sp with
      | some v => Except.ok v
      | none => Except.error (errMsg cleaned)
    | none => Except.error (errMsg cleaned)

end ParseModel

open ResultProcessor ExportService ParseModel

/-- C2: `_is_valid_bbox` accepts exactly the 4-value bboxes with positive
width and height that satisfy the 10-pixel-tolerance bounds check; in
particular boxes fully inside the image are accepted, and boxes with a
non-positive dimension or overflowing the tolerance are rejected. A
missing bbox is read as the empty list by the caller and is covered by the
length clause. -/
theorem bbox_validation_iff :
    (∀ x y w h W H : ℚ,
      is_valid_bbox [x, y, w, h] W H = true ↔
        0 < w ∧ 0 < h ∧ -10 ≤ x ∧ -10 ≤ y ∧ x + w ≤ W + 10 ∧ y + h ≤ H + 10)
    ∧ (∀ (bbox : List ℚ) (W H : ℚ), bbox.length ≠ 4 →
        is_valid_bbox bbox W H = false)
    ∧ (∀ x y w h W H : ℚ, 0 < w → 0 < h → 0 ≤ x → 0 ≤ y → x + w ≤ W → y + h ≤ H →
        is_valid_bbox [x, y, w, h] W H = true)
    ∧ (∀ x y w h W H : ℚ, w ≤ 0 ∨ h ≤ 0 →
        is_valid_bbox [x, y, w, h] W H = false)
    ∧ (∀ x y w h W H : ℚ, W + 10 < x + w ∨ H + 10 < y + h →
        is_valid_bbox [x, y, w, h] W H = false) := by
  have main : ∀ x y w h W H : ℚ,
      is_valid_bbox [x, y, w, h] W H = true ↔
        0 < w ∧ 0 < h ∧ -10 ≤ x ∧ -10 ≤ y ∧ x + w ≤ W + 10 ∧ y + h ≤ H + 10 := by
    intro x y w h W H
    simp only [is_valid_bbox]
    split_ifs with h1 h2 h3
    · simp only [Bool.false_eq_true, false_iff]
      rintro ⟨hw, hh, -⟩
      rcases h1 with h1 | h1 <;> linarith
    · simp only [Bool.false_eq_true, false_iff]
      rintro ⟨-, -, hx, hy, -⟩
      rcases h2 with h2 | h2 <;> linarith
    · simp only [Bool.false_eq_true, false_iff]
      rintro ⟨-, -, -, -, hxw, hyh⟩
      rcases h3 with h3 | h3 <;> linarith
    · push_neg at h1 h2 h3
      simp only [true_iff]
      exact ⟨h1.1, h1.2, h2.1, h2.2, h3.1, h3.2⟩
  refine ⟨main, ?_, ?_, ?_, ?_⟩
  · intro bbox W H hlen
    rcases bbox with _ | ⟨a, _ | ⟨b, _ | ⟨c, _ | ⟨d, _ | ⟨e, rest⟩⟩⟩⟩⟩
    · rfl
    · rfl
    · rfl
    · rfl
    · exact absurd rfl hlen
    · rfl
  · intro x y w h W H hw hh hx hy hxw hyh
    exact (main x y w h W H).mpr ⟨hw, hh, by linarith, by linarith, by linarith, by linarith⟩
  · intro x y w h W H hbad
    cases hv : is_valid_bbox [x, y, w, h] W H
    · rfl
    · obtain ⟨hw, hh, -⟩ := (main x y w h W H).mp hv
      rcases hbad with hbad | hbad <;> linarith
  · intro x y w h W H hbad
    cases hv : is_valid_bbox [x, y, w, h] W H
    · rfl
    · obtain ⟨-, -, -, -, hxw, hyh⟩ := (main x y w h W H).mp hv
      rcases hbad with hbad | hbad <;> linarith

/-- Witness for C2: a concrete fully-inside box is accepted. -/
theorem bbox_validation_iff_witness :
    is_valid_bbox [10, 20, 50, 60] 1000 600 = true :=
  bbox_validation_iff.2.2.1 10 20 50 60 1000 600 (by norm_num) (by norm_num)
    (by norm_num) (by norm_num) (by norm_num) (by norm_num)

/-- C5: for image dimensions at least 1, the clamped bbox of a validated
box satisfies `0 ≤ x ≤ W-1`, `0 ≤ y ≤ H-1`, `x+w ≤ W`, `y+h ≤ H`,
`w, h ≥ 1`; clamping is idempotent, and is the identity on a box already
fully inside the image with `w, h ≥ 1`. -/
theorem clamp_bbox_guarantees :
    (∀ x y w h W H : ℚ, 1 ≤ W → 1 ≤ H →
      is_valid_bbox [x, y, w, h] W H = true →
      ∃ x' y' w' h',
        clamp_bbox x y w h W H = [x', y', w', h'] ∧
        0 ≤ x' ∧ x' ≤ W - 1 ∧ 0 ≤ y' ∧ y' ≤ H - 1 ∧
        x' + w' ≤ W ∧ y' + h' ≤ H ∧ 1 ≤ w' ∧ 1 ≤ h' ∧
        clamp_bbox x' y' w' h' W H = [x', y', w', h'])
    ∧ (∀ x y w h W H : ℚ, 0 ≤ x → 0 ≤ y → 1 ≤ w → 1 ≤ h → x + w ≤ W → y + h ≤ H →
        clamp_bbox x y w h W H = [x, y, w, h]) := by
  constructor
  · intro x y w h W H hW hH _hvalid
    refine ⟨max 0 (min x (W - 1)), max 0 (min y (H - 1)),
      max 1 (min w (W - max 0 (min x (W - 1)))),
      max 1 (min h (H - max 0 (min y (H - 1)))), rfl,
      ?_, ?_, ?_, ?_, ?_, ?_, ?_, ?_, ?_⟩
    · exact le_max_left 0 _
    · exact max_le (by linarith) (min_le_right _ _)
    · exact le_max_left 0 _
    · exact max_le (by linarith) (min_le_right _ _)
    · have hx' : max 0 (min x (W - 1)) ≤ W - 1 := max_le (by linarith) (min_le_right _ _)
      have : max 1 (min w (W - max 0 (min x (W - 1)))) ≤ W - max 0 (min x (W - 1)) :=
        max_le (by linarith) (min_le_right _ _)
      linarith
    · have hy' : max 0 (min y (H - 1)) ≤ H - 1 := max_le (by linarith) (min_le_right _ _)
      have : max 1 (min h (H - max 0 (min y (H - 1)))) ≤ H - max 0 (min y (H - 1)) :=
        max_le (by linarith) (min_le_right _ _)
      linarith
    · exact le_max_left 1 _
    · exact le_max_left 1 _
    · have hx'0 : (0 : ℚ) ≤ max 0 (min x (W - 1)) := le_max_left 0 _
      have hx' : max 0 (min x (W - 1)) ≤ W - 1 := max_le (by linarith) (min_le_right _ _)
      have hy'0 : (0 : ℚ) ≤ max 0 (min y (H - 1)) := le_max_left 0 _
      have hy' : max 0 (min y (H - 1)) ≤ H - 1 := max_le (by linarith) (min_le_right _ _)
      have hw'1 : (1 : ℚ) ≤ max 1 (min w (W - max 0 (min x (W - 1)))) := le_max_left 1 _
      have hw' : max 1 (min w (W - max 0 (min x (W - 1)))) ≤ W - max 0 (min x (W - 1)) :=
        max_le (by linarith) (min_le_right _ _)
      have hh'1 : (1 : ℚ) ≤ max 1 (min h (H - max 0 (min y (H - 1)))) := le_max_left 1 _
      have hh' : max 1 (min h (H - max 0 (min y (H - 1)))) ≤ H - max 0 (min y (H - 1)) :=
        max_le (by linarith) (min_le_right _ _)
      simp only [clamp_bbox]
      rw [min_eq_left hx', max_eq_right hx'0, min_eq_left hy', max_eq_right hy'0,
        min_eq_left hw', max_eq_right hw'1, min_eq_left hh', max_eq_right hh'1]
  · intro x y w h W H hx hy hw hh hxw hyh
    have hxle : x ≤ W - 1 := by linarith
    have hyle : y ≤ H - 1 := by linarith
    simp only [clamp_bbox]
    rw [min_eq_left hxle, max_eq_right hx, min_eq_left hyle, max_eq_right hy,
      min_eq_left (by linarith : w ≤ W - x), max_eq_right hw,
      min_eq_left (by linarith : h ≤ H - y), max_eq_right hh]

/-- Witness for C5: clamping is the identity on a concrete interior box. -/
theorem clamp_bbox_guarantees_witness :
    clamp_bbox 10 20 50 60 1000 600 = [10, 20, 50, 60] :=
  clamp_bbox_guarantees.2 10 20 50 60 1000 600 (by norm_num) (by norm_num)
    (by norm_num) (by norm_num) (by norm_num) (by norm_num)

/-- C6: for a canvas of `cw × ch` length units (stored as EMU), the mapper
places a bbox `[x, y, w, h]` at `left = x·(cw/iw)`, `top = y·(ch/ih)` with
size `w·(cw/iw) × h·(ch/ih)`; on the 10 × 5.625 canvas, image 1000×600 and
box `[100, 100, 200, 100]` this gives `(1, 0.9375, 2, 0.9375)`. -/
theorem coordinate_mapping_correct :
    (∀ cw ch x y w h iw ih : ℚ, iw ≠ 0 → ih ≠ 0 →
      map_bbox (cw * 914400) (ch * 914400) x y w h iw ih =
        (x * (cw / iw), y * (ch / ih), w * (cw / iw), h * (ch / ih)))
    ∧ map_bbox slide_width_emu slide_height_emu 100 100 200 100 1000 600 =
        (1, 0.9375, 2, 0.9375) := by
  constructor
  · intro cw ch x y w h iw ih hiw hih
    simp only [map_bbox, scale_x, scale_y, emu_per_inch, Prod.mk.injEq]
    refine ⟨?_, ?_, ?_, ?_⟩ <;> (field_simp; ring)
  · norm_num [map_bbox, scale_x, scale_y, emu_per_inch, slide_width_emu,
      slide_height_emu, Prod.ext_iff]

/-- Witness for C6: the general mapping law applied at the concrete
canvas, image and box of the specification example. -/
theorem coordinate_mapping_correct_witness :
    map_bbox (10 * 914400) (5.625 * 914400) 100 100 200 100 1000 600 =
      (100 * ((10 : ℚ) / 1000), 100 * ((5.625 : ℚ) / 600),
       200 * ((10 : ℚ) / 1000), 100 * ((5.625 : ℚ) / 600)) :=
  coordinate_mapping_correct.1 10 5.625 100 100 200 100 1000 600
    (by norm_num) (by norm_num)

/-- C7 counterexample: the code converts the point size with `int(...)`,
which truncates toward zero rather than rounding: pixel font size 25 on a
600-px-tall image gives 16.875 points, which the code maps to 16 while
rounding to the nearest integer gives 17. -/
theorem font_size_rounding_counterexample :
    font_size_pt 25 600 slide_height_emu = 16 ∧
    round (font_size_pt_raw 25 600 slide_height_emu) = 17 := by
  have h : font_size_pt_raw 25 600 slide_height_emu = 135 / 8 := by
    norm_num [font_size_pt_raw, emu_per_inch, slide_height_emu]
  constructor
  · simp only [font_size_pt, h, pyInt]
    norm_num
  · rw [h]
    norm_num [round_eq]

/-- C7 (amended): the mapped point size is
`int(px · (canvas_height_units / image_height) · 72)`, i.e. the scaled
value truncated toward zero (the floor, for non-negative values) rather
than rounded; the spec example 24 px on 600 px and a 5.625-unit canvas
still yields 16 because 16.2 truncates and rounds to the same integer. -/
theorem font_size_pt_truncates :
    (∀ px ih ch : ℚ, ih ≠ 0 →
      font_size_pt px ih (ch * 914400) = pyInt (px * (ch / ih) * 72))
    ∧ (∀ q : ℚ, 0 ≤ q → pyInt q = ⌊q⌋)
    ∧ font_size_pt 24 600 slide_height_emu = 16 := by
  refine ⟨?_, ?_, ?_⟩
  · intro px ih ch hih
    have h : font_size_pt_raw px ih (ch * 914400) = px * (ch / ih) * 72 := by
      simp only [font_size_pt_raw, emu_per_inch]
      field_simp
    simp only [font_size_pt, h]
  · intro q hq
    simp only [pyInt, if_neg (not_lt.mpr hq)]
  · have h : font_size_pt_raw 24 600 slide_height_emu = 81 / 5 := by
      norm_num [font_size_pt_raw, emu_per_inch, slide_height_emu]
    simp only [font_size_pt, h, pyInt]
    norm_num

/-- Witness for C7's amended statement: the truncation law at the
specification's concrete input. -/
theorem font_size_pt_truncates_witness :
    font_size_pt 24 600 (5.625 * 914400) = pyInt (24 * ((5.625 : ℚ) / 600) * 72) :=
  font_size_pt_truncates.1 24 600 5.625 (by norm_num)

/-- Auxiliary: the validate-and-clamp stage is the composition of a
validity filter and a clamping map, in that order. -/
theorem validate_elements_eq (l : List SegElem) (W H : ℚ) :
    validate_elements l W H =
      (l.filter fun e => is_valid_bbox e.bbox W H).map
        fun e => { e with bbox := clamp_bbox_list e.bbox W H } := by
  induction l with
  | nil => rfl
  | cons e rest ih =>
    cases hv : is_valid_bbox e.bbox W H <;>
      simp [validate_elements, List.filter_cons, hv, ih]

/-- C1: the normalizer applies, per category and in this order, bbox
validation, clamping, the category minimum-area filter (text 100,
icon 200, chart 500) and overlap deduplication, returning exactly the
survivors; `background_info` is passed through unchanged when present. -/
theorem normalization_pipeline :
    ∀ (raw : RawInfo) (W H : ℚ), 1 ≤ W → 1 ≤ H →
      (validate_and_clean_elements raw W H =
        { text_elements := deduplicate_elements (filter_small_elements
            (((raw.text_elements.getD []).filter fun e => is_valid_bbox e.bbox W H).map
              fun e => { e with bbox := clamp_bbox_list e.bbox W H }) 100)
          icons := deduplicate_elements (filter_small_elements
            (((raw.icons.getD []).filter fun e => is_valid_bbox e.bbox W H).map
              fun e => { e with bbox := clamp_bbox_list e.bbox W H }) 200)
          charts := deduplicate_elements (filter_small_elements
            (((raw.charts.getD []).filter fun e => is_valid_bbox e.bbox W H).map
              fun e => { e with bbox := clamp_bbox_list e.bbox W H }) 500)
          background_info := raw.background_info.getD emptyBg }) ∧
      ∀ bg, raw.background_info = some bg →
        (validate_and_clean_elements raw W H).background_info = bg := by
  intro raw W H _hW _hH
  constructor
  · simp only [validate_and_clean_elements, validate_elements_eq]
  · intro bg hbg
    simp [validate_and_clean_elements, hbg]

/-- Witness for C1: background info of a concrete raw object is passed
through unchanged. -/
theorem normalization_pipeline_witness :
    (validate_and_clean_elements ⟨none, none, none, some ⟨some true, some "white", none⟩⟩
      1000 600).background_info = ⟨some true, some "white", none⟩ :=
  (normalization_pipeline ⟨none, none, none, some ⟨some true, some "white", none⟩⟩ 1000 600
    (by norm_num) (by norm_num)).2 _ rfl

/-- C4: the minimum-area filter keeps an element with a 4-value bbox iff
`w·h ≥ threshold`; through the full pipeline, an element exactly at its
category threshold (text 100, icon 200, chart 500) is kept and one a unit
below it is dropped. -/
theorem min_area_filter :
    (∀ (l : List SegElem) (minArea : ℚ) (e : SegElem) (x y w h : ℚ),
      e.bbox = [x, y, w, h] →
      (e ∈ filter_small_elements l minArea ↔ e ∈ l ∧ minArea ≤ w * h))
    ∧ (validate_and_clean_elements ⟨some [⟨[0, 0, 10, 10], 0⟩], none, none, none⟩
        1000 600).text_elements = [⟨[0, 0, 10, 10], 0⟩]
    ∧ (validate_and_clean_elements ⟨some [⟨[0, 0, 9, 11], 0⟩], none, none, none⟩
        1000 600).text_elements = []
    ∧ (validate_and_clean_elements ⟨none, some [⟨[0, 0, 10, 20], 0⟩], none, none⟩
        1000 600).icons = [⟨[0, 0, 10, 20], 0⟩]
    ∧ (validate_and_clean_elements ⟨none, some [⟨[0, 0, 1, 199], 0⟩], none, none⟩
        1000 600).icons = []
    ∧ (validate_and_clean_elements ⟨none, none, some [⟨[0, 0, 20, 25], 0⟩], none⟩
        1000 600).charts = [⟨[0, 0, 20, 25], 0⟩]
    ∧ (validate_and_clean_elements ⟨none, none, some [⟨[0, 0, 1, 499], 0⟩], none⟩
        1000 600).charts = [] := by
  refine ⟨?_, ?_, ?_, ?_, ?_, ?_, ?_⟩
  · intro l minArea e x y w h hbox
    rw [filter_small_elements, List.mem_filter, hbox]
    simp
  all_goals
    norm_num [validate_and_clean_elements, validate_elements, is_valid_bbox,
      clamp_bbox_list, clamp_bbox, filter_small_elements, deduplicate_elements,
      sortByAreaDesc, insertByAreaDesc, dedup_go, bbox_area, calculate_overlap,
      List.filter_cons, min_def, max_def]

/-- Witness for C4: a concrete text element exactly at the 100 px²
threshold passes the filter. -/
theorem min_area_filter_witness :
    (⟨[0, 0, 10, 10], 5⟩ : SegElem) ∈
      filter_small_elements [⟨[0, 0, 10, 10], 5⟩] 100 :=
  (min_area_filter.1 [⟨[0, 0, 10, 10], 5⟩] 100 ⟨[0, 0, 10, 10], 5⟩ 0 0 10 10 rfl).mpr
    ⟨by simp, by norm_num⟩

set_option maxHeartbeats 2000000 in
/-- C3: deduplication is the greedy overlap filter over the area-descending
sort; a zero union gives IoU 0; IoU 0.71 drops the smaller box, IoU 0.69
keeps both, and disjoint boxes (IoU 0) are both kept. -/
theorem dedup_by_overlap :
    (∀ l : List SegElem, deduplicate_elements l = dedup_go [] (sortByAreaDesc l))
    ∧ (∀ x1 y1 w1 h1 x2 y2 w2 h2 : ℚ,
        w1 * h1 + w2 * h2 -
          max 0 (min (x1 + w1) (x2 + w2) - max x1 x2) *
            max 0 (min (y1 + h1) (y2 + h2) - max y1 y2) = 0 →
        calculate_overlap [x1, y1, w1, h1] [x2, y2, w2, h2] = 0)
    ∧ calculate_overlap [0, 0, 100, 71] [0, 0, 100, 100] = 71 / 100
    ∧ deduplicate_elements [⟨[0, 0, 100, 100], 1⟩, ⟨[0, 0, 100, 71], 2⟩] =
        [⟨[0, 0, 100, 100], 1⟩]
    ∧ deduplicate_elements [⟨[0, 0, 100, 71], 2⟩, ⟨[0, 0, 100, 100], 1⟩] =
        [⟨[0, 0, 100, 100], 1⟩]
    ∧ calculate_overlap [0, 0, 100, 69] [0, 0, 100, 100] = 69 / 100
    ∧ deduplicate_elements [⟨[0, 0, 100, 100], 1⟩, ⟨[0, 0, 100, 69], 3⟩] =
        [⟨[0, 0, 100, 100], 1⟩, ⟨[0, 0, 100, 69], 3⟩]
    ∧ calculate_overlap [0, 0, 10, 10] [50, 50, 10, 10] = 0
    ∧ deduplicate_elements [⟨[0, 0, 10, 10], 4⟩, ⟨[50, 50, 10, 10], 5⟩] =
        [⟨[0, 0, 10, 10], 4⟩, ⟨[50, 50, 10, 10], 5⟩] := by
  refine ⟨?_, ?_, ?_, ?_, ?_, ?_, ?_, ?_, ?_⟩
  · intro l
    rcases l with _ | ⟨a, _ | ⟨b, t⟩⟩
    · rfl
    · simp [deduplicate_elements, sortByAreaDesc, insertByAreaDesc, dedup_go]
    · simp [deduplicate_elements]
  · intro x1 y1 w1 h1 x2 y2 w2 h2 h
    simp only [calculate_overlap]
    rw [if_pos h]
  all_goals
    norm_num [deduplicate_elements, sortByAreaDesc, insertByAreaDesc, dedup_go,
      bbox_area, calculate_overlap, min_def, max_def]

/-- Witness for C3: the zero-union clause at concrete degenerate boxes
(both of zero width, hence zero areas and zero intersection). -/
theorem dedup_by_overlap_witness :
    calculate_overlap [0, 0, 0, 5] [1, 1, 0, 3] = 0 :=
  dedup_by_overlap.2.1 0 0 0 5 1 1 0 3 (by norm_num [min_def, max_def])

/-- Auxiliary: the greedy loop only ever appends a subsequence of its
input to the already-accepted prefix. -/
theorem dedup_go_spec (l : List SegElem) :
    ∀ acc, ∃ k, dedup_go acc l = acc ++ k ∧ k.Sublist l := by
  induction l with
  | nil => exact fun acc => ⟨[], by simp [dedup_go], List.Sublist.refl _⟩
  | cons e rest ih =>
    intro acc
    by_cases hd : (acc.any fun existing =>
        decide (calculate_overlap e.bbox existing.bbox > 7/10)) = true
    · obtain ⟨k, hk, hs⟩ := ih acc
      exact ⟨k, by simp [dedup_go, hd, hk], hs.cons e⟩
    · obtain ⟨k, hk, hs⟩ := ih (acc ++ [e])
      refine ⟨e :: k, ?_, hs.cons₂ e⟩
      simp only [dedup_go, hd, if_false, Bool.false_eq_true]
      rw [hk, List.append_assoc]
      rfl

/-- Auxiliary: membership in a stable insertion step. -/
theorem mem_insertByAreaDesc {x e : SegElem} {l : List SegElem} :
    x ∈ insertByAreaDesc e l ↔ x = e ∨ x ∈ l := by
  induction l with
  | nil => simp [insertByAreaDesc]
  | cons f rest ih =>
    by_cases harea : bbox_area f.bbox < bbox_area e.bbox
    · simp [insertByAreaDesc, harea, List.mem_cons]
      try tauto
    · simp [insertByAreaDesc, harea, List.mem_cons, ih]
      try tauto

/-- Auxiliary: inserting into an area-descending list keeps it
area-descending. -/
theorem pairwise_insertByAreaDesc {e : SegElem} {l : List SegElem}
    (h : l.Pairwise fun a b => bbox_area b.bbox ≤ bbox_area a.bbox) :
    (insertByAreaDesc e l).Pairwise fun a b => bbox_area b.bbox ≤ bbox_area a.bbox := by
  induction l with
  | nil => simp [insertByAreaDesc]
  | cons f rest ih =>
    obtain ⟨hf, hrest⟩ := List.pairwise_cons.mp h
    by_cases harea : bbox_area f.bbox < bbox_area e.bbox
    · rw [insertByAreaDesc, if_pos harea]
      refine List.pairwise_cons.mpr ⟨?_, h⟩
      intro x hx
      rcases List.mem_cons.mp hx with rfl | hx'
      · exact le_of_lt harea
      · exact le_trans (hf x hx') (le_of_lt harea)
    · rw [insertByAreaDesc, if_neg harea]
      refine List.pairwise_cons.mpr ⟨?_, ih hrest⟩
      intro x hx
      rcases mem_insertByAreaDesc.mp hx with rfl | hx'
      · exact not_lt.mp harea
      · exact hf x hx'

/-- Auxiliary: the model of Python's stable descending sort produces an
area-descending list. -/
theorem pairwise_sortByAreaDesc (l : List SegElem) :
    (sortByAreaDesc l).Pairwise fun a b => bbox_area b.bbox ≤ bbox_area a.bbox := by
  suffices h : ∀ acc : List SegElem,
      (acc.Pairwise fun a b => bbox_area b.bbox ≤ bbox_area a.bbox) →
      ((l.foldl (fun acc e => insertByAreaDesc e acc) acc).Pairwise
        fun a b => bbox_area b.bbox ≤ bbox_area a.bbox) by
    exact h [] List.Pairwise.nil
  induction l with
  | nil => exact fun acc h => h
  | cons e rest ih => exact fun acc h => ih _ (pairwise_insertByAreaDesc h)

/-- C10 (amended): validation and the minimum-area filter preserve the
detector's relative order, but deduplication sorts by area descending
(stably), so the output of a category is a subsequence of the stable
area-descending sort of its filtered input and is area-non-increasing —
not, in general, in detector insertion order. -/
theorem normalization_order :
    (∀ (l : List SegElem) (W H : ℚ),
      ((validate_elements l W H).map SegElem.payload).Sublist (l.map SegElem.payload))
    ∧ (∀ (l : List SegElem) (minArea : ℚ),
        (filter_small_elements l minArea).Sublist l)
    ∧ (∀ l : List SegElem, (deduplicate_elements l).Sublist (sortByAreaDesc l))
    ∧ (∀ l : List SegElem,
        (deduplicate_elements l).Pairwise
          fun a b => bbox_area b.bbox ≤ bbox_area a.bbox) := by
  have hc : ∀ l : List SegElem, (deduplicate_elements l).Sublist (sortByAreaDesc l) := by
    intro l
    rcases l with _ | ⟨a, _ | ⟨b, t⟩⟩
    · exact List.Sublist.refl _
    · simp [deduplicate_elements, sortByAreaDesc, insertByAreaDesc]
    · obtain ⟨k, hk, hs⟩ := dedup_go_spec (sortByAreaDesc (a :: b :: t)) []
      simp only [List.nil_append] at hk
      rw [deduplicate_elements, if_neg (by simp)]
      rw [hk]
      exact hs
  refine ⟨?_, ?_, hc, ?_⟩
  · intro l W H
    rw [validate_elements_eq, List.map_map]
    exact (List.filter_sublist l).map _
  · intro l minArea
    exact List.filter_sublist l
  · intro l
    exact (pairwise_sortByAreaDesc l).sublist (hc l)

/-- C10 counterexample: two disjoint surviving text elements (payloads 4
then 9 in detector order, areas 100 and 400) come out in the order 9, 4 —
descending area, not insertion order. -/
theorem normalization_order_counterexample :
    (validate_and_clean_elements
      ⟨some [⟨[0, 0, 10, 10], 4⟩, ⟨[0, 100, 20, 20], 9⟩], none, none, none⟩
      1000 600).text_elements =
      [⟨[0, 100, 20, 20], 9⟩, ⟨[0, 0, 10, 10], 4⟩] ∧
    (⟨[0, 0, 10, 10], 4⟩ : SegElem) ≠ ⟨[0, 100, 20, 20], 9⟩ := by
  constructor
  · norm_num [validate_and_clean_elements, validate_elements, is_valid_bbox,
      clamp_bbox_list, clamp_bbox, filter_small_elements, deduplicate_elements,
      sortByAreaDesc, insertByAreaDesc, dedup_go, bbox_area, calculate_overlap,
      List.filter_cons, min_def, max_def]
  · simp [SegElem.mk.injEq]

/-- Auxiliary: `dropWhile` never lengthens a list. -/
theorem length_dropWhile_le' (p : Char → Bool) (l : List Char) :
    (l.dropWhile p).length ≤ l.length := by
  induction l with
  | nil => simp
  | cons c t ih =>
    rw [List.dropWhile_cons]
    by_cases hp : p c = true
    · simp only [hp, if_true]
      exact le_trans ih (Nat.le_succ _)
    · simp [hp]

/-- Auxiliary: a `dropWhile` result of full length is the whole list. -/
theorem dropWhile_eq_of_length (p : Char → Bool) (l : List Char)
    (h : (l.dropWhile p).length = l.length) : l.dropWhile p = l := by
  cases l with
  | nil => simp
  | cons c t =>
    rw [List.dropWhile_cons] at h ⊢
    by_cases hp : p c = true
    · exfalso
      rw [if_pos hp] at h
      have := length_dropWhile_le' p t
      simp only [List.length_cons] at h
      omega
    · simp [hp]

/-- Auxiliary: if `dropWhile p` fixes a non-empty list, its head fails
`p`. -/
theorem head_of_dropWhile_fixed (p : Char → Bool) {c : Char} {t : List Char}
    (h : (c :: t).dropWhile p = c :: t) : p c = false := by
  by_cases hp : p c = true
  · exfalso
    rw [List.dropWhile_cons, if_pos hp] at h
    have := length_dropWhile_le' p t
    rw [h] at this
    simp at this
  · simpa using hp

/-- Auxiliary: a fixed point of `pyStrip` is fixed by both one-sided
strips. -/
theorem pyStrip_fixed {s : List Char} (h : pyStrip s = s) :
    s.dropWhile isSpaceAscii = s ∧ s.reverse.dropWhile isSpaceAscii = s.reverse := by
  have hlen : ((s.dropWhile isSpaceAscii).reverse.dropWhile isSpaceAscii).length = s.length := by
    have := congrArg List.length h
    simpa [pyStrip] using this
  have h2 : ((s.dropWhile isSpaceAscii).reverse.dropWhile isSpaceAscii).length ≤
      (s.dropWhile isSpaceAscii).length := by
    calc ((s.dropWhile isSpaceAscii).reverse.dropWhile isSpaceAscii).length
        ≤ (s.dropWhile isSpaceAscii).reverse.length := length_dropWhile_le' _ _
      _ = (s.dropWhile isSpaceAscii).length := by simp
  have h3 : (s.dropWhile isSpaceAscii).length ≤ s.length := length_dropWhile_le' _ _
  have hd : s.dropWhile isSpaceAscii = s :=
    dropWhile_eq_of_length _ _ (by omega)
  refine ⟨hd, ?_⟩
  apply dropWhile_eq_of_length
  rw [hd] at hlen
  simp only [List.length_reverse] at hlen ⊢
  omega

/-- Auxiliary: the first-substitution scan of the empty list. -/
theorem sub1Go_nil (fuel : ℕ) (b : Bool) : sub1Go fuel b [] = [] := by
  cases fuel <;> rfl

/-- Auxiliary: on backtick-free content followed by a newline and a closing
fence, the first-substitution scan copies the content and the newline and
removes the fence. -/
theorem sub1Go_copy (s : List Char) : ∀ (fuel : ℕ) (b : Bool), '\x60' ∉ s →
    s.length + 4 ≤ fuel →
    sub1Go fuel b (s ++ ['\n', '\x60', '\x60', '\x60']) = s ++ ['\n'] := by
  induction s with
  | nil =>
    intro fuel b _ hfuel
    obtain ⟨f, rfl⟩ : ∃ f, fuel = f + 2 := ⟨fuel - 2, by omega⟩
    simp [sub1Go, stripJsonTag, sub1Go_nil]
  | cons c s' ih =>
    intro fuel b hbt hfuel
    obtain ⟨f, rfl⟩ : ∃ f, fuel = f + 1 := ⟨fuel - 1, by omega⟩
    have hc : c ≠ '\x60' := fun hcontra => hbt (hcontra ▸ List.mem_cons_self c s')
    rw [List.cons_append]
    show sub1Go (f + 1) b (c :: (s' ++ ['\n', '\x60', '\x60', '\x60'])) = _
    rw [sub1Go, if_neg (fun hcond => hc hcond.2.1)]
    rw [List.cons_append]
    congr 1
    refine ih f _ (fun hmem => hbt (List.mem_cons_of_mem c hmem)) ?_
    simp only [List.length_cons] at hfuel
    omega

/-- Auxiliary: `dropWhile` fixes a list whose head fails the predicate. -/
theorem dropWhile_cons_false {p : Char → Bool} {c : Char} {t : List Char}
    (h : p c = false) : (c :: t).dropWhile p = c :: t := by
  rw [List.dropWhile_cons]
  simp [h]

/-- Auxiliary: `pyStrip` fixes a list fixed by both one-sided strips. -/
theorem pyStrip_fix_of {l : List Char} (h1 : l.dropWhile isSpaceAscii = l)
    (h2 : l.reverse.dropWhile isSpaceAscii = l.reverse) : pyStrip l = l := by
  unfold pyStrip
  rw [h1, h2, List.reverse_reverse]

/-- Auxiliary: the cleaned form of a nonempty, backtick-free, stripped
payload wrapped in a ```json fence is the payload followed by the newline
that preceded the closing fence (the two substitutions delete both fences
and the whitespace after the opening one). -/
theorem cleanText_wrap (c0 : Char) (s1 : List Char)
    (hbt : '\x60' ∉ (c0 :: s1)) (hc0 : isSpaceAscii c0 = false) :
    cleanText ("```json\n".toList ++ (c0 :: s1) ++ "\n```".toList) =
      (c0 :: s1) ++ ['\n'] := by
  have hc0bt : c0 ≠ '\x60' := fun hcontra => hbt (hcontra ▸ List.mem_cons_self c0 s1)
  have hA : "```json\n".toList = ['\x60', '\x60', '\x60', 'j', 's', 'o', 'n', '\n'] := rfl
  have hB : "\n```".toList = ['\n', '\x60', '\x60', '\x60'] := rfl
  rw [hA, hB]
  simp only [List.cons_append, List.nil_append]
  set big := '\x60' :: '\x60' :: '\x60' :: 'j' :: 's' :: 'o' :: 'n' :: '\n' ::
    c0 :: (s1 ++ ['\n', '\x60', '\x60', '\x60']) with hbig
  have hps : pyStrip big = big := by
    refine pyStrip_fix_of (dropWhile_cons_false (by decide)) ?_
    have hlast : big.reverse.head? = some '\x60' := by
      rw [List.head?_reverse, hbig]
      rw [show '\x60' :: '\x60' :: '\x60' :: 'j' :: 's' :: 'o' :: 'n' :: '\n' ::
          c0 :: (s1 ++ ['\n', '\x60', '\x60', '\x60']) =
          ('\x60' :: '\x60' :: '\x60' :: 'j' :: 's' :: 'o' :: 'n' :: '\n' :: c0 :: s1) ++
          ['\n', '\x60', '\x60', '\x60'] by simp]
      rw [List.getLast?_append]
      rfl
    cases hrev : big.reverse with
    | nil => simp
    | cons d t =>
      rw [hrev] at hlast
      simp only [List.head?_cons, Option.some.injEq] at hlast
      exact dropWhile_cons_false (by rw [hlast]; decide)
  have hsw : startsWithFence big = true := rfl
  have hlen : big.length = (s1.length + 12) + 1 := by
    simp [hbig]
  have hsub : sub1Go big.length true big = (c0 :: s1) ++ ['\n'] := by
    rw [hlen, hbig]
    rw [sub1Go, if_pos ⟨rfl, rfl, rfl⟩]
    simp only [List.drop_succ_cons, List.drop_zero, stripJsonTag,
      List.takeWhile_cons, List.dropWhile_cons,
      show isSpaceAscii '\n' = true from by decide, hc0, if_true,
      Bool.false_eq_true, if_false]
    simp only [List.takeWhile_nil, show (['\n'].getLast? = some '\n') = True from by simp,
      decide_True]
    rw [← List.cons_append]
    exact sub1Go_copy (c0 :: s1) (s1.length + 12) true hbt (by simp)
  simp only [cleanText, hps, stripMarkdown, hsw, if_true, hsub, List.cons_append]
  rw [if_neg (by simp [endsWithFence])]

/-- Auxiliary: a backtick-free stripped input is already clean. -/
theorem cleanText_id {s : List Char} (hbt : '\x60' ∉ s) (hstrip : pyStrip s = s) :
    cleanText s = s := by
  have h1 : startsWithFence s = false := by
    cases hsw : startsWithFence s
    · rfl
    · exfalso
      have htake : s.take 3 = ['\x60', '\x60', '\x60'] := of_decide_eq_true hsw
      exact hbt (List.take_subset 3 s (htake ▸ List.mem_cons_self _ _))
  have h2 : endsWithFence s = false := by
    cases hsw : endsWithFence s
    · rfl
    · exfalso
      have htake : s.reverse.take 3 = ['\x60', '\x60', '\x60'] := of_decide_eq_true hsw
      have : '\x60' ∈ s.reverse :=
        List.take_subset 3 s.reverse (htake ▸ List.mem_cons_self _ _)
      exact hbt (List.mem_reverse.mp this)
  simp only [cleanText, hstrip, stripMarkdown, h1, Bool.false_eq_true, if_false, h2]

/-- Auxiliary: a trailing newline is removed by the JSON whitespace strip. -/
theorem jsonStrip_append_newline (l : List Char) :
    jsonStrip (l ++ ['\n']) = jsonStrip l := by
  unfold jsonStrip
  rw [List.dropWhile_append]
  by_cases hd : (l.dropWhile isJsonWs).isEmpty
  · rw [if_pos hd, List.isEmpty_iff.mp hd]
    simp [show isJsonWs '\n' = true from by decide]
  · rw [if_neg hd]
    have hrev : ((l.dropWhile isJsonWs) ++ ['\n']).reverse =
        '\n' :: (l.dropWhile isJsonWs).reverse := by simp
    rw [hrev, List.dropWhile_cons, if_pos (by decide)]

/-- Auxiliary: a trailing newline changes neither the first opening brace
nor the last closing brace, hence not the greedy brace span. -/
theorem braceSpan_append_newline (l : List Char) :
    braceSpan (l ++ ['\n']) = braceSpan l := by
  have haux : braceSpanAux (l ++ ['\n']) = braceSpanAux l := by
    unfold braceSpanAux
    rw [List.dropWhile_append]
    by_cases hd : (l.dropWhile fun c => !(c = '\x7b')).isEmpty
    · rw [if_pos hd, List.isEmpty_iff.mp hd]
      simp
    · rw [if_neg hd]
      have hrev : ((l.dropWhile fun c => !(c = '\x7b')) ++ ['\n']).reverse =
          '\n' :: (l.dropWhile fun c => !(c = '\x7b')).reverse := by simp
      rw [hrev, List.dropWhile_cons, if_pos (by decide)]
  unfold braceSpan
  rw [haux]

/-- Auxiliary: `json.loads` ignores a trailing newline. -/
theorem json_loads_append_newline (l : List Char) :
    json_loads (l ++ ['\n']) = json_loads l := by
  unfold json_loads
  rw [jsonStrip_append_newline]

/-- C9 counterexample: the input `null` contains no braces, yet the parser
does not raise: `json.loads` succeeds on any JSON value, not only objects,
so the parser returns the parsed `null` instead of a ParseError. -/
theorem parse_response_counterexample :
    parse_json_response "null".toList = Except.ok Json.null ∧
    '\x7b' ∉ "null".toList ∧
    (parse_json_response "null".toList).isOk = true :=
  ⟨rfl, by decide, rfl⟩

/-- C9 (amended): the parser raises iff, after stripping fences, neither
the direct JSON parse of the cleaned text nor the parse of its first
greedy brace span succeeds; the raised error carries the first 200
characters of the cleaned text; an input with no braces whose cleaned text
is not parseable JSON raises; and a backtick-free, stripped input wrapped
in ```json fences parses to the same value as the unwrapped input. -/
theorem parse_response_behavior :
    (∀ s : List Char,
      (∃ m, parse_json_response s = Except.error m) ↔
        json_loads (cleanText s) = none ∧ spanParse (cleanText s) = none)
    ∧ (∀ s : List Char, json_loads (cleanText s) = none →
        spanParse (cleanText s) = none →
        parse_json_response s = Except.error (errMsg (cleanText s)))
    ∧ (∀ s : List Char, '\x7b' ∉ cleanText s → json_loads (cleanText s) = none →
        parse_json_response s = Except.error (errMsg (cleanText s)))
    ∧ (∀ (c0 : Char) (s1 : List Char), '\x60' ∉ (c0 :: s1) →
        pyStrip (c0 :: s1) = c0 :: s1 → ∀ v,
        (parse_json_response ("```json\n".toList ++ (c0 :: s1) ++ "\n```".toList) =
            Except.ok v ↔
          parse_json_response (c0 :: s1) = Except.ok v)) := by
  have comp2 : ∀ s : List Char, json_loads (cleanText s) = none →
      spanParse (cleanText s) = none →
      parse_json_response s = Except.error (errMsg (cleanText s)) := by
    intro s hj hsp
    simp only [parse_json_response, hj]
    cases hb : braceSpan (cleanText s) with
    | none => simp
    | some sp =>
      have hjs : json_loads sp = none := by simpa [spanParse, hb] using hsp
      simp [hjs]
  refine ⟨?_, comp2, ?_, ?_⟩
  · intro s
    constructor
    · rintro ⟨m, hm⟩
      cases hj : json_loads (cleanText s) with
      | some v => simp [parse_json_response, hj] at hm
      | none =>
        refine ⟨rfl, ?_⟩
        cases hb : braceSpan (cleanText s) with
        | none => simp [spanParse, hb]
        | some sp =>
          cases hjs : json_loads sp with
          | some v => simp [parse_json_response, hj, hb, hjs] at hm
          | none => simp [spanParse, hb, hjs]
    · rintro ⟨hj, hsp⟩
      exact ⟨errMsg (cleanText s), comp2 s hj hsp⟩
  · intro s hnb hj
    have ht : (cleanText s).dropWhile (fun c => !(c = '\x7b')) = [] := by
      rw [List.dropWhile_eq_nil_iff]
      intro x hx
      simp only [Bool.not_eq_true', decide_eq_false_iff_not]
      exact fun hcontra => hnb (hcontra ▸ hx)
    have hb : braceSpan (cleanText s) = none := by
      unfold braceSpan braceSpanAux
      rw [ht]
      simp
    exact comp2 s hj (by simp [spanParse, hb])
  · intro c0 s1 hbt hstrip v
    have hc0 : isSpaceAscii c0 = false :=
      head_of_dropWhile_fixed _ (pyStrip_fixed hstrip).1
    have hw := cleanText_wrap c0 s1 hbt hc0
    have hu := cleanText_id hbt hstrip
    simp only [parse_json_response, hw, hu, json_loads_append_newline,
      braceSpan_append_newline]
    cases hj : json_loads (c0 :: s1) with
    | some v' => simp [hj]
    | none =>
      cases hb : braceSpan (c0 :: s1) with
      | none => simp [hj, hb]
      | some sp =>
        cases hjs : json_loads sp with
        | some v' => simp [hj, hb, hjs]
        | none => simp [hj, hb, hjs]

/-- Witness for C9's amended statement: a concrete fenced `null` payload
parses to the same value as the bare payload. -/
theorem parse_response_behavior_witness :
    parse_json_response ("```json\nnull\n```".toList) = Except.ok Json.null := by
  have h := parse_response_behavior.2.2.2 'n' ['u', 'l', 'l'] (by decide) (by decide)
    Json.null
  have heq : "```json\nnull\n```".toList =
      "```json\n".toList ++ ('n' :: ['u', 'l', 'l']) ++ "\n```".toList := by decide
  rw [heq]
  exact h.mpr (by rfl)

/-- C8 counterexample: the mapper applies no minimum-size clamping: a
zero-width bbox (length-4, so it passes the only check on this path)
yields an emitted width of exactly 0 canvas units, not a width of at
least 1 unit as the claim requires for non-positive scaled dimensions. -/
theorem min_size_clamp_counterexample :
    (map_bbox slide_width_emu slide_height_emu 0 0 0 10 1000 600).2.2.1 = 0 ∧
    ¬ (1 ≤ (map_bbox slide_width_emu slide_height_emu 0 0 0 10 1000 600).2.2.1) := by
  constructor <;>
    norm_num [map_bbox, scale_x, scale_y, emu_per_inch, slide_width_emu, slide_height_emu]

/-- C8 (amended): the mapper emits the raw scaled dimensions unchanged
(no minimum-size clamp exists), so a non-positive input dimension yields a
non-positive shape dimension; positive input dimensions with positive
image and slide dimensions always yield positive (though possibly
sub-unit) shape dimensions. -/
theorem mapped_dimensions_unclamped :
    (∀ sw sh x y w h iw ih : ℚ,
      (map_bbox sw sh x y w h iw ih).2.2.1 = w * (sw / iw) / 914400 ∧
      (map_bbox sw sh x y w h iw ih).2.2.2 = h * (sh / ih) / 914400)
    ∧ (∀ sw sh x y w h iw ih : ℚ, 0 < sw → 0 < sh → 0 < iw → 0 < ih →
        0 < w → 0 < h →
        0 < (map_bbox sw sh x y w h iw ih).2.2.1 ∧
        0 < (map_bbox sw sh x y w h iw ih).2.2.2) := by
  constructor
  · intro sw sh x y w h iw ih
    exact ⟨rfl, rfl⟩
  · intro sw sh x y w h iw ih hsw hsh hiw hih hw hh
    constructor
    · simp only [map_bbox, scale_x, emu_per_inch]
      positivity
    · simp only [map_bbox, scale_y, emu_per_inch]
      positivity

/-- Witness for C8's amended statement: positive emitted dimensions at a
concrete input. -/
theorem mapped_dimensions_unclamped_witness :
    0 < (map_bbox slide_width_emu slide_height_emu 100 100 200 100 1000 600).2.2.1 ∧
    0 < (map_bbox slide_width_emu slide_height_emu 100 100 200 100 1000 600).2.2.2 :=
  mapped_dimensions_unclamped.2 slide_width_emu slide_height_emu 100 100 200 100 1000 600
    (by norm_num [slide_width_emu]) (by norm_num [slide_height_emu]) (by norm_num)
    (by norm_num) (by norm_num) (by norm_num)
